import Mathlib

/-!
Shallow embedding of the `near-private-data` client messaging core
(`src/client/lib/src` and `src/client/src`): byte-level SHA-256 and
ChaCha20-Poly1305 models, channel derivation (`channel.rs`), pair channels
(`PairChannel`), group channels (`group.rs`), streams (`messenger.rs`),
and the stream multiplexer (`combined.rs`).

Bytes are `Nat` values below 256, byte strings are `List Nat`, and u32
arithmetic is `Nat` arithmetic reduced modulo 2^32 exactly where the Rust
source works in `u32`.
-/

namespace NPD

/-- 2^32, the modulus of Rust `u32` arithmetic. -/
def U32M : Nat := 4294967296

/-- `u32` addition (wrapping, as the `Wrapping`/release semantics of `+`). -/
def add32 (a b : Nat) : Nat := (a + b) % U32M

/-- Truncate to 32 bits (`as u32`). -/
def trunc32 (a : Nat) : Nat := a % U32M

/-- Rotate a 32-bit word right by `n` (0 < n < 32). -/
def rotr32 (n x : Nat) : Nat := ((x >>> n) ||| (x <<< (32 - n))) % U32M

/-- Rotate a 32-bit word left by `n` (0 < n < 32). -/
def rotl32 (n x : Nat) : Nat := ((x <<< n) ||| (x >>> (32 - n))) % U32M

/-- `u32::to_le_bytes`: the 4-byte little-endian encoding of a `u32`. -/
def u32le (n : Nat) : List Nat :=
  [n % 256, n / 256 % 256, n / 65536 % 256, n / 16777216 % 256]

/-- 8-byte little-endian encoding of a `u64` (used in AEAD length fields). -/
def u64le (n : Nat) : List Nat :=
  u32le (n % U32M) ++ u32le (n / U32M)

/-- 4-byte big-endian encoding of a 32-bit word (SHA-256 output order). -/
def be32 (w : Nat) : List Nat :=
  [w / 16777216 % 256, w / 65536 % 256, w / 256 % 256, w % 256]

/-- 8-byte big-endian encoding (SHA-256 length field). -/
def be64 (w : Nat) : List Nat := be32 (w / U32M) ++ be32 w

/-- Little-endian value of a byte string. -/
def leNum : List Nat → Nat
  | [] => 0
  | b :: rest => b + 256 * leNum rest

/-- Group a byte string into 4-byte big-endian words (SHA-256 input order). -/
def toWordsBE : List Nat → List Nat
  | a :: b :: c :: d :: rest => (((a * 256 + b) * 256 + c) * 256 + d) :: toWordsBE rest
  | _ => []

/-- Group a byte string into 4-byte little-endian words (ChaCha20 key/nonce). -/
def toWordsLE : List Nat → List Nat
  | a :: b :: c :: d :: rest => (((d * 256 + c) * 256 + b) * 256 + a) :: toWordsLE rest
  | _ => []

/-! ## SHA-256 (the `sha2` crate, modelled at byte level) -/

/-- The eight working variables of the SHA-256 compression function. -/
structure Sha256Regs where
  a : Nat
  b : Nat
  c : Nat
  d : Nat
  e : Nat
  f : Nat
  g : Nat
  h : Nat
deriving Repr, DecidableEq

/-- SHA-256 initial hash value. -/
def sha256H0 : Sha256Regs :=
  ⟨1779033703, 3144134277, 1013904242, 2773480762,
   1359893119, 2600822924, 528734635, 1541459225⟩

/-- SHA-256 round constants. -/
def sha256K : List Nat :=
  [1116352408, 1899447441, 3049323471, 3921009573, 961987163, 1508970993,
   2453635748, 2870763221, 3624381080, 310598401, 607225278, 1426881987,
   1925078388, 2162078206, 2614888103, 3248222580, 3835390401, 4022224774,
   264347078, 604807628, 770255983, 1249150122, 1555081692, 1996064986,
   2554220882, 2821834349, 2952996808, 3210313671, 3336571891, 3584528711,
   113926993, 338241895, 666307205, 773529912, 1294757372, 1396182291,
   1695183700, 1986661051, 2177026350, 2456956037, 2730485921, 2820302411,
   3259730800, 3345764771, 3516065817, 3600352804, 4094571909, 275423344,
   430227734, 506948616, 659060556, 883997877, 958139571, 1322822218,
   1537002063, 1747873779, 1955562222, 2024104815, 2227730452, 2361852424,
   2428436474, 2756734187, 3204031479, 3329325298]

/-- σ0 of the message schedule. -/
def ssig0 (x : Nat) : Nat := rotr32 7 x ^^^ rotr32 18 x ^^^ (x >>> 3)

/-- σ1 of the message schedule. -/
def ssig1 (x : Nat) : Nat := rotr32 17 x ^^^ rotr32 19 x ^^^ (x >>> 10)

/-- Σ0 of the round function. -/
def bsig0 (x : Nat) : Nat := rotr32 2 x ^^^ rotr32 13 x ^^^ rotr32 22 x

/-- Σ1 of the round function. -/
def bsig1 (x : Nat) : Nat := rotr32 6 x ^^^ rotr32 11 x ^^^ rotr32 25 x

/-- Ch(x, y, z), with ¬x as xor against the 32-bit mask. -/
def chFn (x y z : Nat) : Nat := (x &&& y) ^^^ ((x ^^^ 4294967295) &&& z)

/-- Maj(x, y, z). -/
def majFn (x y z : Nat) : Nat := (x &&& y) ^^^ (x &&& z) ^^^ (y &&& z)

/-- One step of extending the message schedule by one word. -/
def schedStep (ws : List Nat) : List Nat :=
  ws ++ [add32 (add32 (ssig1 (ws.getD (ws.length - 2) 0)) (ws.getD (ws.length - 7) 0))
              (add32 (ssig0 (ws.getD (ws.length - 15) 0)) (ws.getD (ws.length - 16) 0))]

/-- The 64-word message schedule of one block (16 input words + 48 extensions). -/
def sha256Schedule (block16 : List Nat) : List Nat :=
  Nat.iterate schedStep 48 block16

/-- One SHA-256 round (`t1`/`t2` update of the working variables). -/
def sha256Round (r : Sha256Regs) (kw : Nat × Nat) : Sha256Regs :=
  let t1 := add32 r.h (add32 (bsig1 r.e) (add32 (chFn r.e r.f r.g) (add32 kw.1 kw.2)))
  let t2 := add32 (bsig0 r.a) (majFn r.a r.b r.c)
  ⟨add32 t1 t2, r.a, r.b, r.c, add32 r.d t1, r.e, r.f, r.g⟩

/-- Compress one 64-byte block into the running hash value. -/
def sha256Compress (r : Sha256Regs) (block : List Nat) : Sha256Regs :=
  let w := sha256Schedule (toWordsBE block)
  let s := (sha256K.zip w).foldl sha256Round r
  ⟨add32 r.a s.a, add32 r.b s.b, add32 r.c s.c, add32 r.d s.d,
   add32 r.e s.e, add32 r.f s.f, add32 r.g s.g, add32 r.h s.h⟩

/-- Split a byte string into 64-byte chunks (fuel-driven; `fuel ≥ length`). -/
def chunks64 : Nat → List Nat → List (List Nat)
  | 0, _ => []
  | _, [] => []
  | fuel + 1, l => l.take 64 :: chunks64 fuel (l.drop 64)

/-- SHA-256 padding: 0x80, zeros, and the 64-bit big-endian bit length. -/
def sha256Pad (msg : List Nat) : List Nat :=
  msg ++ 128 :: List.replicate ((64 - (msg.length + 9) % 64) % 64) 0 ++ be64 (8 * msg.length)

/-- The SHA-256 digest (32 bytes) of a byte string. -/
def sha256Bytes (msg : List Nat) : List Nat :=
  let padded := sha256Pad msg
  let r := (chunks64 padded.length padded).foldl sha256Compress sha256H0
  be32 r.a ++ be32 r.b ++ be32 r.c ++ be32 r.d ++ be32 r.e ++ be32 r.f ++ be32 r.g ++ be32 r.h

/-! ## ChaCha20-Poly1305 (the `chacha20poly1305` crate, RFC 8439, byte level) -/

/-- The 16-word ChaCha20 state. -/
structure CCState where
  x0 : Nat
  x1 : Nat
  x2 : Nat
  x3 : Nat
  x4 : Nat
  x5 : Nat
  x6 : Nat
  x7 : Nat
  x8 : Nat
  x9 : Nat
  x10 : Nat
  x11 : Nat
  x12 : Nat
  x13 : Nat
  x14 : Nat
  x15 : Nat
deriving Repr, DecidableEq

/-- The ChaCha20 quarter round on four words. -/
def ccQR (a b c d : Nat) : Nat × Nat × Nat × Nat :=
  let a := add32 a b
  let d := rotl32 16 (d ^^^ a)
  let c := add32 c d
  let b := rotl32 12 (b ^^^ c)
  let a := add32 a b
  let d := rotl32 8 (d ^^^ a)
  let c := add32 c d
  let b := rotl32 7 (b ^^^ c)
  (a, b, c, d)

/-- One ChaCha20 double round: the four column rounds then the four diagonal
rounds. -/
def ccDoubleRound (s : CCState) : CCState :=
  let (a0, a4, a8, a12) := ccQR s.x0 s.x4 s.x8 s.x12
  let (a1, a5, a9, a13) := ccQR s.x1 s.x5 s.x9 s.x13
  let (a2, a6, a10, a14) := ccQR s.x2 s.x6 s.x10 s.x14
  let (a3, a7, a11, a15) := ccQR s.x3 s.x7 s.x11 s.x15
  let (b0, b5, b10, b15) := ccQR a0 a5 a10 a15
  let (b1, b6, b11, b12) := ccQR a1 a6 a11 a12
  let (b2, b7, b8, b13) := ccQR a2 a7 a8 a13
  let (b3, b4, b9, b14) := ccQR a3 a4 a9 a14
  ⟨b0, b1, b2, b3, b4, b5, b6, b7, b8, b9, b10, b11, b12, b13, b14, b15⟩

/-- The initial ChaCha20 state for a 32-byte key, block counter and 12-byte
nonce. -/
def ccInit (key : List Nat) (counter : Nat) (nonce : List Nat) : CCState :=
  let k := toWordsLE key
  let n := toWordsLE nonce
  ⟨0x61707865, 0x3320646e, 0x79622d32, 0x6b206574,
   k.getD 0 0, k.getD 1 0, k.getD 2 0, k.getD 3 0,
   k.getD 4 0, k.getD 5 0, k.getD 6 0, k.getD 7 0,
   trunc32 counter, n.getD 0 0, n.getD 1 0, n.getD 2 0⟩

/-- The 64-byte ChaCha20 block for `(key, counter, nonce)`. -/
def ccBlock (key : List Nat) (counter : Nat) (nonce : List Nat) : List Nat :=
  let i := ccInit key counter nonce
  let s := Nat.iterate ccDoubleRound 10 i
  u32le (add32 s.x0 i.x0) ++ u32le (add32 s.x1 i.x1) ++ u32le (add32 s.x2 i.x2) ++
  u32le (add32 s.x3 i.x3) ++ u32le (add32 s.x4 i.x4) ++ u32le (add32 s.x5 i.x5) ++
  u32le (add32 s.x6 i.x6) ++ u32le (add32 s.x7 i.x7) ++ u32le (add32 s.x8 i.x8) ++
  u32le (add32 s.x9 i.x9) ++ u32le (add32 s.x10 i.x10) ++ u32le (add32 s.x11 i.x11) ++
  u32le (add32 s.x12 i.x12) ++ u32le (add32 s.x13 i.x13) ++ u32le (add32 s.x14 i.x14) ++
  u32le (add32 s.x15 i.x15)

/-- `n` consecutive ChaCha20 keystream blocks starting at block `counter`. -/
def ccBlocks (key : List Nat) (nonce : List Nat) : Nat → Nat → List Nat
  | _, 0 => []
  | counter, n + 1 => ccBlock key counter nonce ++ ccBlocks key nonce (counter + 1) n

/-- ChaCha20 encryption/decryption: xor with the keystream starting at block
counter 1 (RFC 8439 AEAD convention; block 0 keys Poly1305). -/
def ccEncrypt (key : List Nat) (nonce : List Nat) (msg : List Nat) : List Nat :=
  List.zipWith Nat.xor msg (ccBlocks key nonce 1 ((msg.length + 63) / 64))

/-- Split a byte string into 16-byte chunks (fuel-driven; `fuel ≥ length`). -/
def chunks16 : Nat → List Nat → List (List Nat)
  | 0, _ => []
  | _, [] => []
  | fuel + 1, l => l.take 16 :: chunks16 fuel (l.drop 16)

/-- 16-byte little-endian encoding (the Poly1305 tag serialisation). -/
def le16 (n : Nat) : List Nat :=
  (List.range 16).map (fun i => n / 256 ^ i % 256)

/-- The Poly1305 prime 2^130 - 5. -/
def polyP : Nat := 1361129467683753853853498429727072845819

/-- The Poly1305 MAC of `msg` under a 32-byte one-time key. -/
def poly1305 (key : List Nat) (msg : List Nat) : List Nat :=
  let r := leNum (key.take 16) &&& 0x0ffffffc0ffffffc0ffffffc0fffffff
  let s := leNum (key.drop 16)
  let acc := (chunks16 msg.length msg).foldl
    (fun acc blk => (acc + (leNum blk + 256 ^ blk.length)) * r % polyP) 0
  le16 ((acc + s) % 2 ^ 128)

/-- Zero padding up to the next 16-byte boundary (RFC 8439 MAC input). -/
def pad16 (l : List Nat) : List Nat :=
  List.replicate ((16 - l.length % 16) % 16) 0

/-- The AEAD tag: Poly1305 over `aad ‖ pad ‖ ct ‖ pad ‖ len aad ‖ len ct`,
keyed by the first 32 bytes of ChaCha20 block 0. The client encrypts with no
associated data, so `aad = []` here. -/
def aeadTag (key : List Nat) (nonce : List Nat) (ct : List Nat) : List Nat :=
  let polyKey := (ccBlock key 0 nonce).take 32
  poly1305 polyKey (ct ++ pad16 ct ++ u64le 0 ++ u64le ct.length)

/-- AEAD seal: ciphertext followed by the 16-byte tag. -/
def aeadSeal (key : List Nat) (nonce : List Nat) (msg : List Nat) : List Nat :=
  ccEncrypt key nonce msg ++ aeadTag key nonce (ccEncrypt key nonce msg)

/-- Errors surfaced by the channel layer. -/
inductive ChannelError where
  /-- AEAD tag verification failed (`aead::Error` on decrypt). -/
  | forgery
  /-- The key slice was not 32 bytes (`new_from_slice` failure). -/
  | invalidKey
deriving Repr, DecidableEq

/-- AEAD open: split off the 16-byte tag, verify it, and decrypt.
Fails (`Forgery`) when the input is shorter than a tag or the tag does not
verify. -/
def aeadOpen (key : List Nat) (nonce : List Nat) (data : List Nat) :
    Except ChannelError (List Nat) :=
  if data.length < 16 then .error .forgery
  else if aeadTag key nonce (data.take (data.length - 16)) = data.drop (data.length - 16) then
    .ok (ccEncrypt key nonce (data.take (data.length - 16)))
  else .error .forgery

/-- The streaming `Sha256` hasher of the `sha2` crate, fixed by its interface:
the digest of a sequence of `chain_update`s is the digest of the concatenated
input. The accumulated input is the hasher's state. -/
structure Sha256Hasher where
  buffer : List Nat
deriving Repr, DecidableEq

/-- `Sha256::new()`. -/
def Sha256Hasher.init : Sha256Hasher := ⟨[]⟩

/-- `Digest::chain_update` / `update`: absorb more input. -/
def Sha256Hasher.chainUpdate (s : Sha256Hasher) (bytes : List Nat) : Sha256Hasher :=
  ⟨s.buffer ++ bytes⟩

/-- `Digest::finalize`: the digest of everything absorbed. -/
def Sha256Hasher.finalize (s : Sha256Hasher) : List Nat :=
  sha256Bytes s.buffer

/-! ## Channel layer (`src/client/lib/src/channel.rs`, `src/client/src/channel.rs`) -/

/-- `u32_to_nonce`: `[u.to_le_bytes(), [0u8; 4], [0u8; 4]].concat()`. -/
def u32ToNonce (u : Nat) : List Nat :=
  u32le u ++ List.replicate 8 0

/-- `Channel::encrypt`: ChaCha20-Poly1305 seal keyed on the shared secret, the
nonce derived entirely from the `u32` sequence number. `new_from_slice` fails
when the key slice is not 32 bytes. -/
def channelEncrypt (sharedSecret : List Nat) (nonce : Nat) (message : List Nat) :
    Except ChannelError (List Nat) :=
  if sharedSecret.length = 32 then .ok (aeadSeal sharedSecret (u32ToNonce nonce) message)
  else .error .invalidKey

/-- `Channel::decrypt`: ChaCha20-Poly1305 open; fails with `Forgery` when the
tag does not verify. -/
def channelDecrypt (sharedSecret : List Nat) (nonce : Nat) (message : List Nat) :
    Except ChannelError (List Nat) :=
  if sharedSecret.length = 32 then aeadOpen sharedSecret (u32ToNonce nonce) message
  else .error .invalidKey

/-- `SequenceHashProducer::sequence_hash`:
`Sha256::new().chain_update(sequence_number.to_le_bytes()).chain_update(identifier).finalize()`. -/
def sequenceHash (identifier : List Nat) (sequenceNumber : Nat) : List Nat :=
  ((Sha256Hasher.init.chainUpdate (u32le sequenceNumber)).chainUpdate identifier).finalize

/-- `copy_from_slice` of `src` into `buf` at `offset` (the slice assignment
`buf[offset..offset + src.len()].copy_from_slice(&src)`). -/
def writeSlice (buf : List Nat) (offset : Nat) (src : List Nat) : List Nat :=
  buf.take offset ++ src ++ buf.drop (offset + src.length)

/-- `PairChannel` (`src/client/src/channel.rs`): a directed two-party channel. -/
structure PairChannel where
  sender_id : List Nat
  receiver_id : List Nat
  shared_secret : List Nat
  identifier : List Nat
deriving Repr, DecidableEq

/-- `PairChannel::new`: the 256-byte identifier holds sender id at `[0..32)`,
receiver id at `[32..64)`, shared secret at `[64..96)`, zero elsewhere. -/
def PairChannel.new (senderId receiverId sharedSecret : List Nat) : PairChannel :=
  { sender_id := senderId
    receiver_id := receiverId
    shared_secret := sharedSecret
    identifier :=
      writeSlice (writeSlice (writeSlice (List.replicate 256 0) 0 senderId) 32 receiverId)
        64 sharedSecret }

/-- Modelled from the spec: the X25519 Diffie-Hellman exchange lives in the
external `x25519_dalek` crate and is fixed only by its interface — a secret
key type, `PublicKey::from(&secret)`, and `diffie_hellman` with the agreement
law `DH(a, public(b)) = DH(b, public(a))` (spec §4.2 step 1). Key and secret
byte strings are 32 bytes. -/
structure DHScheme where
  Sk : Type
  pk : Sk → List Nat
  dh : Sk → List Nat → List Nat
  pk_len : ∀ a, (pk a).length = 32
  dh_len : ∀ a p, (dh a p).length = 32
  dh_comm : ∀ a b, dh a (pk b) = dh b (pk a)

/-- `PairChannel::pair`: DH, then the send channel (local key as sender) and
the receive channel (roles swapped), sharing the secret. -/
def PairChannel.pair (S : DHScheme) (senderSecret : S.Sk) (receiverPublicKey : List Nat) :
    PairChannel × PairChannel :=
  let sharedSecret := S.dh senderSecret receiverPublicKey
  let senderPublicKey := S.pk senderSecret
  (PairChannel.new senderPublicKey receiverPublicKey sharedSecret,
   PairChannel.new receiverPublicKey senderPublicKey sharedSecret)

/-! ## Message repository handle (`message_repository.rs`), as the streams see it -/

/-- `EncryptedMessage`: ciphertext plus the repository's publication
timestamp. -/
structure EncryptedMessage where
  message : List Nat
  block_timestamp_ms : Nat
deriving Repr, DecidableEq

/-- Errors a stream operation surfaces. -/
inductive StreamError where
  /-- A repository RPC / transport failure (`anyhow` from get or put). -/
  | repoError
  /-- A channel failure (forgery on decrypt, bad key). -/
  | channel (e : ChannelError)
deriving Repr, DecidableEq

/-- The repository read interface as one `get_message`
response per slot: an RPC error, an empty slot, or a stored message. -/
def RepoView : Type := List Nat → Except Unit (Option EncryptedMessage)

/-- The repository write interface: the outcome `publish_message` would
return for a given slot and ciphertext. -/
def RepoPublish : Type := List Nat → List Nat → Except Unit Unit

/-! ## Pair streams and the messenger send path
(`src/client/lib/src/messenger.rs`) -/

/-- `DecryptedMessage`. -/
structure DecryptedMessage where
  block_timestamp_ms : Nat
  message : List Nat
deriving Repr, DecidableEq

/-- `PairStream`: one direction of a conversation — a `PairChannel` plus the
`next_nonce` counter (`Arc<Mutex<u32>>`, modelled as its value). -/
structure PairStream where
  channel : PairChannel
  next_nonce : Nat
deriving Repr, DecidableEq

/-- `PairStream::get_next_nonce`. -/
def PairStream.get_next_nonce (s : PairStream) : Nat := s.next_nonce

/-- `PairStream::get_next_sequence_hash`. -/
def PairStream.get_next_sequence_hash (s : PairStream) : List Nat :=
  sequenceHash s.channel.identifier s.get_next_nonce

/-- `PairStream::advance_nonce` (`u32` increment). -/
def PairStream.advance_nonce (s : PairStream) : PairStream :=
  { s with next_nonce := (s.next_nonce + 1) % U32M }

/-- `PairStream::receive_next` (also `MessageStream::receive_next` of
`src/client/src/messenger.rs`): read the nonce, compute the slot, `get`;
absent gives `None`; present is decrypted and, on success only, the nonce
advances. Repository and decrypt errors propagate before the advance. -/
def PairStream.receive_next (repo : RepoView) (s : PairStream) :
    Except StreamError (Option DecryptedMessage) × PairStream :=
  let nonce := s.get_next_nonce
  let sequence_hash := s.get_next_sequence_hash
  match repo sequence_hash with
  | .error _ => (.error .repoError, s)
  | .ok none => (.ok none, s)
  | .ok (some ciphertext) =>
    match channelDecrypt s.channel.shared_secret nonce ciphertext.message with
    | .error e => (.error (.channel e), s)
    | .ok cleartext =>
      (.ok (some { message := cleartext, block_timestamp_ms := ciphertext.block_timestamp_ms }),
       s.advance_nonce)

/-- `Messenger::send_raw`, after the conversation lookup (the essential send
path, also `Messenger::send`/`encrypt` of `src/client/src/messenger.rs`):
read the nonce and slot, encrypt, publish. The outcome of
`publish_message` is the external `publish` argument. -/
def Messenger.send_raw (publish : RepoPublish) (send : PairStream) (cleartext : List Nat) :
    Except StreamError Unit × PairStream :=
  let nonce := send.get_next_nonce
  let sequence_hash := send.get_next_sequence_hash
  match channelEncrypt send.channel.shared_secret nonce cleartext with
  | .error e => (.error (.channel e), send)
  | .ok ciphertext =>
    match publish sequence_hash ciphertext with
    | .error _ => (.error .repoError, send)
    | .ok _ => (.ok (), send)

/-! ## Group channels (`src/client/lib/src/group.rs`) -/

/-- Lexicographic `≤` on byte strings — the derived `Ord` of
`CorrespondentId([u8; 32])` (members always have equal length 32). -/
def bytesLe : List Nat → List Nat → Bool
  | [], _ => true
  | _ :: _, [] => false
  | a :: as_, b :: bs => if a < b then true else if b < a then false else bytesLe as_ bs

/-- Insert into a sorted list (stable). -/
def insertSorted (x : List Nat) : List (List Nat) → List (List Nat)
  | [] => [x]
  | y :: ys => if bytesLe x y then x :: y :: ys else y :: insertSorted x ys

/-- `Vec::sort` of the member list (sort by the lexicographic order). -/
def sortMembers : List (List Nat) → List (List Nat)
  | [] => []
  | x :: xs => insertSorted x (sortMembers xs)

/-- `Group`: canonicalised member list, own index, per-lane counters, shared
secret, identifier. -/
structure Group where
  send_messages_from_member_index : Nat
  members : List (List Nat)
  next_message_index : List Nat
  shared_secret : List Nat
  identifier : List Nat
deriving Repr, DecidableEq

/-- `Group::new`: push self, sort, locate self; identifier holds
`SHA-256(members)` at `[0..32)`, the shared secret at `[64..96)` and
`SHA-256(context)` at `[96..128)`; `next_message_index` is built by
`members.iter().enumerate().map(|(i, _)| i as u32)`. -/
def Group.new (sendMessagesFromMember : List Nat) (otherMembers : List (List Nat))
    (sharedSecret : List Nat) (context : List Nat) : Group :=
  let members := sortMembers (otherMembers ++ [sendMessagesFromMember])
  let sendIdx := members.findIdx (fun m => m = sendMessagesFromMember)
  let membersHash := sha256Bytes members.flatten
  let contextHash := sha256Bytes context
  { send_messages_from_member_index := sendIdx
    members := members
    next_message_index := (List.range members.length).map trunc32
    shared_secret := sharedSecret
    identifier :=
      writeSlice (writeSlice (writeSlice (List.replicate 256 0) 0 membersHash) 64 sharedSecret)
        96 contextHash }

/-- `Group::get_nonce_for_message`:
`self.members.len() as u32 * message_index + correspondent_index`, every
operation in `u32` arithmetic. -/
def Group.get_nonce_for_message (g : Group) (messageIndex correspondentIndex : Nat) : Nat :=
  (trunc32 g.members.length * messageIndex % U32M + correspondentIndex) % U32M

/-- `Group::receive_next_for`: poll lane `correspondent_index` at the nonce
for its current logical index; advance that lane's counter only after a
successful decrypt. -/
def Group.receive_next_for (repo : RepoView) (g : Group) (correspondentIndex : Nat) :
    Except StreamError (Option DecryptedMessage) × Group :=
  let messageIndex := g.next_message_index.getD correspondentIndex 0
  let nonce := g.get_nonce_for_message messageIndex correspondentIndex
  let sequence_hash := sequenceHash g.identifier nonce
  match repo sequence_hash with
  | .error _ => (.error .repoError, g)
  | .ok none => (.ok none, g)
  | .ok (some ciphertext) =>
    match channelDecrypt g.shared_secret nonce ciphertext.message with
    | .error e => (.error (.channel e), g)
    | .ok cleartext =>
      (.ok (some { message := cleartext, block_timestamp_ms := ciphertext.block_timestamp_ms }),
       { g with next_message_index :=
          g.next_message_index.modify (fun x => (x + 1) % U32M) correspondentIndex })

/-- `Group::send`: read the own lane's logical index, derive the nonce and
slot, encrypt, publish. -/
def Group.send (publish : RepoPublish) (g : Group) (cleartext : List Nat) :
    Except StreamError Unit × Group :=
  let messageIndex := g.next_message_index.getD g.send_messages_from_member_index 0
  let nonce := g.get_nonce_for_message messageIndex (trunc32 g.send_messages_from_member_index)
  let sequence_hash := sequenceHash g.identifier nonce
  match channelEncrypt g.shared_secret nonce cleartext with
  | .error e => (.error (.channel e), g)
  | .ok ciphertext =>
    match publish sequence_hash ciphertext with
    | .error _ => (.error .repoError, g)
    | .ok _ => (.ok (), g)

/-! ## The stream multiplexer (`src/client/lib/src/combined.rs`,
`set_oldest_message` of `src/client/src/combined.rs`) -/

/-- The selection loop of `CombinedMessageStream::next`: scan the buffered
lookaheads in stream order, keeping the running `(timestamp, index)` of the
oldest message; the running best is kept only when strictly older than the
candidate (`oldest_timestamp < next_message_timestamp`). -/
def selectLoop (i : Nat) (best : Option (Nat × Nat)) :
    List (Option DecryptedMessage) → Option (Nat × Nat)
  | [] => best
  | la :: rest =>
    let best' :=
      match la with
      | none => best
      | some m =>
        match best with
        | some (ts, j) =>
          if ts < m.block_timestamp_ms then some (ts, j) else some (m.block_timestamp_ms, i)
        | none => some (m.block_timestamp_ms, i)
    selectLoop (i + 1) best' rest

/-- Fill pass of `CombinedMessageStream::next`: a stream with an empty
lookahead gets the result of one `receive_next()` (given here as `fresh`,
one response per stream); a populated lookahead is kept. -/
def fillLookaheads (las fresh : List (Option DecryptedMessage)) :
    List (Option DecryptedMessage) :=
  List.zipWith (fun la f => la.orElse (fun _ => f)) las fresh

/-- `CombinedMessageStream::next` in the error-free round: fill the
lookaheads, select the stream with the oldest buffered message, take its
message (emptying that slot). Returns the selected `(stream index, message)`
and the lookahead buffers after the call. -/
def combinedNext (las fresh : List (Option DecryptedMessage)) :
    Option (Nat × DecryptedMessage) × List (Option DecryptedMessage) :=
  let filled := fillLookaheads las fresh
  match selectLoop 0 none filled with
  | none => (none, filled)
  | some (_, i) => ((filled.getD i none).map (fun m => (i, m)), filled.set i none)

/-! ## Structured messages (`StructuredMessage` of
`src/client/lib/src/messenger.rs`) -/

/-- `StructuredMessage::HEADER_MAGIC`. -/
def headerMagic : List Nat := [88, 88, 88, 88]

/-- A `StructuredMessage<KEY_SIZE>`, contents as UTF-8 bytes. -/
structure StructuredMessage where
  next_key : List Nat
  contents : List Nat
deriving Repr, DecidableEq

/-- UTF-8 validity of a byte string (`String::from_utf8` succeeds). -/
def utf8Valid : List Nat → Bool
  | [] => true
  | b1 :: t1 =>
    if b1 ≤ 0x7F then utf8Valid t1
    else
      match t1 with
      | [] => false
      | b2 :: t2 =>
        if 0xC2 ≤ b1 ∧ b1 ≤ 0xDF then (0x80 ≤ b2 ∧ b2 ≤ 0xBF) && utf8Valid t2
        else
          match t2 with
          | [] => false
          | b3 :: t3 =>
            if b1 = 0xE0 then
              ((0xA0 ≤ b2 ∧ b2 ≤ 0xBF) ∧ (0x80 ≤ b3 ∧ b3 ≤ 0xBF)) && utf8Valid t3
            else if (0xE1 ≤ b1 ∧ b1 ≤ 0xEC) ∨ b1 = 0xEE ∨ b1 = 0xEF then
              ((0x80 ≤ b2 ∧ b2 ≤ 0xBF) ∧ (0x80 ≤ b3 ∧ b3 ≤ 0xBF)) && utf8Valid t3
            else if b1 = 0xED then
              ((0x80 ≤ b2 ∧ b2 ≤ 0x9F) ∧ (0x80 ≤ b3 ∧ b3 ≤ 0xBF)) && utf8Valid t3
            else
              match t3 with
              | [] => false
              | b4 :: t4 =>
                if b1 = 0xF0 then
                  ((0x90 ≤ b2 ∧ b2 ≤ 0xBF) ∧ (0x80 ≤ b3 ∧ b3 ≤ 0xBF) ∧
                    (0x80 ≤ b4 ∧ b4 ≤ 0xBF)) && utf8Valid t4
                else if 0xF1 ≤ b1 ∧ b1 ≤ 0xF3 then
                  ((0x80 ≤ b2 ∧ b2 ≤ 0xBF) ∧ (0x80 ≤ b3 ∧ b3 ≤ 0xBF) ∧
                    (0x80 ≤ b4 ∧ b4 ≤ 0xBF)) && utf8Valid t4
                else if b1 = 0xF4 then
                  ((0x80 ≤ b2 ∧ b2 ≤ 0x8F) ∧ (0x80 ≤ b3 ∧ b3 ≤ 0xBF) ∧
                    (0x80 ≤ b4 ∧ b4 ≤ 0xBF)) && utf8Valid t4
                else false

/-- `StructuredMessage::try_from_bytes` with panics made explicit:
`&bytes[0..4]` panics (`.error ()`) when the input is shorter than 4 bytes,
and `bytes[4..4 + KEY_SIZE]` panics when the header matched but the input is
shorter than `4 + KEY_SIZE`; `String::from_utf8(..).ok()?` turns invalid
UTF-8 contents into `None`. -/
def tryFromBytes (keySize : Nat) (bytes : List Nat) :
    Except Unit (Option StructuredMessage) :=
  if bytes.length < 4 then .error ()
  else if bytes.take 4 ≠ headerMagic then .ok none
  else if bytes.length < 4 + keySize then .error ()
  else
    let contents := bytes.drop (4 + keySize)
    if utf8Valid contents then
      .ok (some { next_key := (bytes.drop 4).take keySize, contents := contents })
    else .ok none

/-! ## Length facts -/

theorem u32le_length (n : Nat) : (u32le n).length = 4 := rfl

theorem be32_length (w : Nat) : (be32 w).length = 4 := rfl

theorem le16_length (n : Nat) : (le16 n).length = 16 := by
  simp [le16]

theorem sha256Bytes_length (msg : List Nat) : (sha256Bytes msg).length = 32 := by
  simp [sha256Bytes, be32]

theorem sequenceHash_def (identifier : List Nat) (seq : Nat) :
    sequenceHash identifier seq = sha256Bytes (u32le seq ++ identifier) := rfl

theorem sequenceHash_length (identifier : List Nat) (seq : Nat) :
    (sequenceHash identifier seq).length = 32 :=
  sha256Bytes_length _

theorem poly1305_length (key msg : List Nat) : (poly1305 key msg).length = 16 := by
  simp [poly1305, le16]

theorem ccBlock_length (key : List Nat) (counter : Nat) (nonce : List Nat) :
    (ccBlock key counter nonce).length = 64 := by
  simp [ccBlock, u32le]

theorem ccBlocks_length (key nonce : List Nat) (n counter : Nat) :
    (ccBlocks key nonce counter n).length = 64 * n := by
  induction n generalizing counter with
  | zero => rfl
  | succ k ih =>
    simp only [ccBlocks, List.length_append, ccBlock_length, ih]
    ring

theorem ccEncrypt_length (key nonce msg : List Nat) :
    (ccEncrypt key nonce msg).length = msg.length := by
  simp only [ccEncrypt, List.length_zipWith, ccBlocks_length]
  omega

theorem writeSlice_length (buf : List Nat) (offset : Nat) (src : List Nat)
    (h : offset + src.length ≤ buf.length) :
    (writeSlice buf offset src).length = buf.length := by
  simp only [writeSlice, List.length_append, List.length_take, List.length_drop]
  omega

/-! ## AEAD roundtrip -/

theorem zipWith_xor_cancel : ∀ (m ks : List Nat), m.length ≤ ks.length →
    List.zipWith Nat.xor (List.zipWith Nat.xor m ks) ks = m
  | [], _, _ => rfl
  | _ :: _, [], h => absurd h (by simp)
  | a :: m, k :: ks, h => by
    simp only [List.zipWith_cons_cons, List.cons.injEq]
    exact ⟨Nat.xor_cancel_right k a, zipWith_xor_cancel m ks (by simpa using h)⟩

theorem ccEncrypt_involutive (key nonce msg : List Nat) :
    ccEncrypt key nonce (ccEncrypt key nonce msg) = msg := by
  have hlen := ccEncrypt_length key nonce msg
  simp only [ccEncrypt] at hlen ⊢
  rw [hlen]
  exact zipWith_xor_cancel msg _ (by rw [ccBlocks_length]; omega)

theorem aeadOpen_aeadSeal (key nonce msg : List Nat) :
    aeadOpen key nonce (aeadSeal key nonce msg) = .ok msg := by
  have hct : (ccEncrypt key nonce msg).length = msg.length := ccEncrypt_length key nonce msg
  have htag : (aeadTag key nonce (ccEncrypt key nonce msg)).length = 16 := poly1305_length _ _
  have hlen : (aeadSeal key nonce msg).length = msg.length + 16 := by
    simp [aeadSeal, hct, htag]
  have hsplit : (aeadSeal key nonce msg).length - 16 = (ccEncrypt key nonce msg).length := by
    omega
  unfold aeadOpen
  rw [if_neg (by omega), hsplit]
  unfold aeadSeal
  rw [List.take_left, List.drop_left, if_pos rfl, ccEncrypt_involutive]

theorem channel_roundtrip (sharedSecret : List Nat) (seq : Nat) (msg : List Nat)
    (h : sharedSecret.length = 32) :
    channelEncrypt sharedSecret seq msg = .ok (aeadSeal sharedSecret (u32ToNonce seq) msg) ∧
    channelDecrypt sharedSecret seq (aeadSeal sharedSecret (u32ToNonce seq) msg) = .ok msg := by
  rw [channelEncrypt, channelDecrypt, if_pos h, if_pos h]
  exact ⟨rfl, aeadOpen_aeadSeal _ _ _⟩

/-! ## Identifier layout -/

theorem writeSlice_zero (buf src : List Nat) :
    writeSlice buf 0 src = src ++ buf.drop src.length := by
  simp [writeSlice]

theorem writeSlice_append (pre rest src : List Nat) :
    writeSlice (pre ++ rest) pre.length src = pre ++ (src ++ rest.drop src.length) := by
  rw [writeSlice, List.take_left, List.drop_append_eq_append_drop,
    List.drop_eq_nil_of_le (by omega : pre.length ≤ pre.length + src.length)]
  have hd : pre.length + src.length - pre.length = src.length := by omega
  rw [hd, List.nil_append, List.append_assoc]

theorem pair_identifier_eq (sid rid ss : List Nat)
    (h1 : sid.length = 32) (h2 : rid.length = 32) (h3 : ss.length = 32) :
    (PairChannel.new sid rid ss).identifier = sid ++ (rid ++ (ss ++ List.replicate 160 0)) := by
  have s1 : writeSlice (List.replicate 256 0) 0 sid = sid ++ List.replicate 224 0 := by
    rw [writeSlice_zero, h1, List.drop_replicate]
  have s2 : writeSlice (sid ++ List.replicate 224 0) 32 rid =
      sid ++ (rid ++ List.replicate 192 0) := by
    rw [← h1, writeSlice_append, h2, List.drop_replicate]
  have s3 : writeSlice (sid ++ (rid ++ List.replicate 192 0)) 64 ss =
      sid ++ (rid ++ (ss ++ List.replicate 160 0)) := by
    rw [← List.append_assoc]
    have h64 : (64 : Nat) = (sid ++ rid).length := by
      rw [List.length_append, h1, h2]
    rw [h64, writeSlice_append, h3, List.drop_replicate, List.append_assoc]
  show writeSlice (writeSlice (writeSlice (List.replicate 256 0) 0 sid) 32 rid) 64 ss = _
  rw [s1, s2, s3]

theorem pair_identifier_length (sid rid ss : List Nat)
    (h1 : sid.length = 32) (h2 : rid.length = 32) (h3 : ss.length = 32) :
    (PairChannel.new sid rid ss).identifier.length = 256 := by
  rw [pair_identifier_eq sid rid ss h1 h2 h3]
  simp only [List.length_append, List.length_replicate, h1, h2, h3]

theorem group_identifier_length (self : List Nat) (others : List (List Nat))
    (ss ctx : List Nat) (h : ss.length = 32) :
    (Group.new self others ss ctx).identifier.length = 256 := by
  have hm : (sha256Bytes (sortMembers (others ++ [self])).flatten).length = 32 :=
    sha256Bytes_length _
  have hc : (sha256Bytes ctx).length = 32 := sha256Bytes_length _
  have l0 : (List.replicate 256 (0 : Nat)).length = 256 := List.length_replicate 256 0
  have l1 : (writeSlice (List.replicate 256 0) 0
      (sha256Bytes (sortMembers (others ++ [self])).flatten)).length = 256 := by
    rw [writeSlice_length _ _ _ (by omega), l0]
  have l2 : (writeSlice (writeSlice (List.replicate 256 0) 0
      (sha256Bytes (sortMembers (others ++ [self])).flatten)) 64 ss).length = 256 := by
    rw [writeSlice_length _ _ _ (by omega), l1]
  show (writeSlice (writeSlice (writeSlice (List.replicate 256 0) 0 _) 64 ss) 96 _).length = 256
  rw [writeSlice_length _ _ _ (by omega), l2]

/-! ## The concrete Diffie-Hellman instance (discrete exponentiation modulo a
32-bit prime), witnessing that `DHScheme`'s interface is satisfiable -/

theorem leNum_u32le (x : Nat) (h : x < U32M) : leNum (u32le x) = x := by
  simp only [u32le, leNum]
  have : U32M = 4294967296 := rfl
  omega

/-- The toy scheme's group modulus (a prime below 2^32). -/
def powQ : Nat := 4294967291

/-- Toy public key: `3 ^ secret mod powQ`, little-endian in 32 bytes. -/
def powPk (a : Nat) : List Nat := u32le (3 ^ a % powQ) ++ List.replicate 28 0

/-- Toy Diffie-Hellman: raise the peer's public value to the own secret. -/
def powDh (a : Nat) (p : List Nat) : List Nat :=
  u32le (leNum (p.take 4) ^ a % powQ) ++ List.replicate 28 0

theorem powQ_lt : powQ < U32M := by decide

theorem leNum_powPk (b : Nat) : leNum ((powPk b).take 4) = 3 ^ b % powQ := by
  rw [powPk, List.take_append_eq_append_take,
    List.take_of_length_le (le_of_eq (u32le_length _)), u32le_length]
  simp only [Nat.sub_self, List.take_zero, List.append_nil]
  exact leNum_u32le _ ((Nat.mod_lt _ (by decide)).trans powQ_lt)

/-- The toy scheme as a `DHScheme`. -/
@[reducible] def powScheme : DHScheme where
  Sk := Nat
  pk := powPk
  dh := powDh
  pk_len := by
    intro a
    simp [powPk, u32le]
  dh_len := by
    intro a p
    simp [powDh, u32le]
  dh_comm := by
    intro a b
    simp only [powDh]
    rw [leNum_powPk, leNum_powPk, ← Nat.pow_mod, ← Nat.pow_mod, ← Nat.pow_mul, ← Nat.pow_mul,
      Nat.mul_comm]

/-! ## The multiplexer selection loop -/

theorem selectLoop_spec :
    ∀ (l : List (Option DecryptedMessage)) (i : Nat) (best : Option (Nat × Nat)) (ts k : Nat),
      selectLoop i best l = some (ts, k) →
      (best = some (ts, k) ∧
        ∀ (j : Nat) (m : DecryptedMessage), l[j]? = some (some m) →
          ts < m.block_timestamp_ms) ∨
      ((∃ (j : Nat) (m : DecryptedMessage),
          l[j]? = some (some m) ∧ k = i + j ∧ ts = m.block_timestamp_ms) ∧
        (∀ (j : Nat) (m : DecryptedMessage), l[j]? = some (some m) →
          ts ≤ m.block_timestamp_ms) ∧
        (∀ (j : Nat) (m : DecryptedMessage), l[j]? = some (some m) →
          m.block_timestamp_ms = ts → i + j ≤ k) ∧
        (∀ bts bk, best = some (bts, bk) → ts ≤ bts))
  | [], _, _, _, _, h => by
    left
    refine ⟨h, ?_⟩
    intro j m hj
    simp at hj
  | none :: rest, i, best, ts, k, h => by
    have h' : selectLoop (i + 1) best rest = some (ts, k) := h
    rcases selectLoop_spec rest (i + 1) best ts k h' with
      ⟨hb, hrest⟩ | ⟨⟨j, m, hj, hk, hts⟩, hmin, hmax, hbest⟩
    · left
      refine ⟨hb, ?_⟩
      intro j m hj
      match j with
      | 0 => simp at hj
      | j + 1 => exact hrest j m (by simpa using hj)
    · right
      refine ⟨⟨j + 1, m, by simpa using hj, by omega, hts⟩, ?_, ?_, hbest⟩
      · intro j' m' hj'
        match j' with
        | 0 => simp at hj'
        | j' + 1 => exact hmin j' m' (by simpa using hj')
      · intro j' m' hj' hts'
        match j' with
        | 0 => simp at hj'
        | j' + 1 =>
          have := hmax j' m' (by simpa using hj') hts'
          omega
  | some m0 :: rest, i, none, ts, k, h => by
    have h' : selectLoop (i + 1) (some (m0.block_timestamp_ms, i)) rest = some (ts, k) := h
    rcases selectLoop_spec rest (i + 1) (some (m0.block_timestamp_ms, i)) ts k h' with
      ⟨hb, hrest⟩ | ⟨⟨j, m, hj, hk, hts⟩, hmin, hmax, hbest⟩
    · obtain ⟨hts, hk⟩ : m0.block_timestamp_ms = ts ∧ i = k := by
        injection hb with hb'
        exact ⟨congrArg Prod.fst hb', congrArg Prod.snd hb'⟩
      right
      refine ⟨⟨0, m0, by simp, by omega, hts.symm⟩, ?_, ?_, ?_⟩
      · intro j' m' hj'
        match j' with
        | 0 =>
          have hj0 : m0 = m' := by simpa using hj'
          subst hj0
          omega
        | j' + 1 => exact le_of_lt (hrest j' m' (by simpa using hj'))
      · intro j' m' hj' hts'
        match j' with
        | 0 => omega
        | j' + 1 =>
          have := hrest j' m' (by simpa using hj')
          omega
      · intro bts bk hb'
        cases hb'
    · have hle : ts ≤ m0.block_timestamp_ms := hbest _ _ rfl
      right
      refine ⟨⟨j + 1, m, by simpa using hj, by omega, hts⟩, ?_, ?_, ?_⟩
      · intro j' m' hj'
        match j' with
        | 0 =>
          have hj0 : m0 = m' := by simpa using hj'
          subst hj0
          omega
        | j' + 1 => exact hmin j' m' (by simpa using hj')
      · intro j' m' hj' hts'
        match j' with
        | 0 => omega
        | j' + 1 =>
          have := hmax j' m' (by simpa using hj') hts'
          omega
      · intro bts bk hb'
        cases hb'
  | some m0 :: rest, i, some (bts, bj), ts, k, h => by
    by_cases hlt : bts < m0.block_timestamp_ms
    · have h' : selectLoop (i + 1)
          (if bts < m0.block_timestamp_ms then some (bts, bj)
            else some (m0.block_timestamp_ms, i)) rest = some (ts, k) := h
      rw [if_pos hlt] at h'
      rcases selectLoop_spec rest (i + 1) (some (bts, bj)) ts k h' with
        ⟨hb, hrest⟩ | ⟨⟨j, m, hj, hk, hts⟩, hmin, hmax, hbest⟩
      · obtain ⟨hts, hk⟩ : bts = ts ∧ bj = k := by
          injection hb with hb'
          exact ⟨congrArg Prod.fst hb', congrArg Prod.snd hb'⟩
        left
        refine ⟨by rw [hts, hk], ?_⟩
        intro j' m' hj'
        match j' with
        | 0 =>
          have hj0 : m0 = m' := by simpa using hj'
          subst hj0
          omega
        | j' + 1 => exact hrest j' m' (by simpa using hj')
      · have hle : ts ≤ bts := hbest _ _ rfl
        right
        refine ⟨⟨j + 1, m, by simpa using hj, by omega, hts⟩, ?_, ?_, ?_⟩
        · intro j' m' hj'
          match j' with
          | 0 =>
            have hj0 : m0 = m' := by simpa using hj'
            subst hj0
            omega
          | j' + 1 => exact hmin j' m' (by simpa using hj')
        · intro j' m' hj' hts'
          match j' with
          | 0 =>
            have hj0 : m0 = m' := by simpa using hj'
            subst hj0
            omega
          | j' + 1 =>
            have := hmax j' m' (by simpa using hj') hts'
            omega
        · intro bts' bk' hb'
          injection hb' with hb''
          have : bts' = bts := (congrArg Prod.fst hb'').symm
          omega
    · have h' : selectLoop (i + 1)
          (if bts < m0.block_timestamp_ms then some (bts, bj)
            else some (m0.block_timestamp_ms, i)) rest = some (ts, k) := h
      rw [if_neg hlt] at h'
      rcases selectLoop_spec rest (i + 1) (some (m0.block_timestamp_ms, i)) ts k h' with
        ⟨hb, hrest⟩ | ⟨⟨j, m, hj, hk, hts⟩, hmin, hmax, hbest⟩
      · obtain ⟨hts, hk⟩ : m0.block_timestamp_ms = ts ∧ i = k := by
          injection hb with hb'
          exact ⟨congrArg Prod.fst hb', congrArg Prod.snd hb'⟩
        right
        refine ⟨⟨0, m0, by simp, by omega, hts.symm⟩, ?_, ?_, ?_⟩
        · intro j' m' hj'
          match j' with
          | 0 =>
            have hj0 : m0 = m' := by simpa using hj'
            subst hj0
            omega
          | j' + 1 => exact le_of_lt (hrest j' m' (by simpa using hj'))
        · intro j' m' hj' hts'
          match j' with
          | 0 => omega
          | j' + 1 =>
            have := hrest j' m' (by simpa using hj')
            omega
        · intro bts' bk' hb'
          injection hb' with hb''
          have : bts' = bts := (congrArg Prod.fst hb'').symm
          omega
      · have hle : ts ≤ m0.block_timestamp_ms := hbest _ _ rfl
        right
        refine ⟨⟨j + 1, m, by simpa using hj, by omega, hts⟩, ?_, ?_, ?_⟩
        · intro j' m' hj'
          match j' with
          | 0 =>
            have hj0 : m0 = m' := by simpa using hj'
            subst hj0
            omega
          | j' + 1 => exact hmin j' m' (by simpa using hj')
        · intro j' m' hj' hts'
          match j' with
          | 0 => omega
          | j' + 1 =>
            have := hmax j' m' (by simpa using hj') hts'
            omega
        · intro bts' bk' hb'
          injection hb' with hb''
          have : bts' = bts := (congrArg Prod.fst hb'').symm
          omega

/-! ## Concrete fixtures used by witnesses and counterexamples -/

/-- A concrete 32-byte shared secret. -/
def exSecret : List Nat := List.replicate 32 7

/-- A concrete pair channel. -/
def exChannel : PairChannel :=
  PairChannel.new (List.replicate 32 0) (List.replicate 32 1) exSecret

/-- A concrete pair stream at counter 0. -/
def exStream : PairStream := ⟨exChannel, 0⟩

/-- A concrete two-member group. -/
def exGroup : Group :=
  Group.new (List.replicate 32 0) [List.replicate 32 1] exSecret []

/-- A publish outcome that always succeeds. -/
def pubOk : RepoPublish := fun _ _ => .ok ()

/-- A repository in which every slot is empty. -/
def repoEmpty : RepoView := fun _ => .ok none

/-- A stored message that decrypts under `exSecret` at nonce 0. -/
def exCipher : EncryptedMessage := ⟨aeadSeal exSecret (u32ToNonce 0) [104], 42⟩

/-- A repository answering every slot with `exCipher`. -/
def repoGood : RepoView := fun _ => .ok (some exCipher)

/-- A repository answering every slot with an undecryptable message. -/
def repoBad : RepoView := fun _ => .ok (some ⟨[], 42⟩)

/-- Two buffered messages sharing the timestamp 5. -/
def msgT5a : DecryptedMessage := ⟨5, [0]⟩

/-- See `msgT5a`. -/
def msgT5b : DecryptedMessage := ⟨5, [1]⟩

/-! ## C1 — the send paths and the sequence counter -/

/-- C1, amended: neither `Messenger::send_raw` nor `Group::send` ever touches
the stream's sequence counter — the stream state after a send, successful or
failed, is the state before it; the counter is advanced only by
`receive_next`. (The claim as stated — a successful send increments the
counter — fails on the code: no send path calls `advance_nonce`.) -/
theorem claim1_theorem :
    (∀ (publish : RepoPublish) (s : PairStream) (m : List Nat),
      (Messenger.send_raw publish s m).2 = s) ∧
    (∀ (publish : RepoPublish) (g : Group) (m : List Nat),
      (Group.send publish g m).2 = g) := by
  constructor
  · intro publish s m
    rcases hE : channelEncrypt s.channel.shared_secret s.get_next_nonce m with e | ct
    · simp only [Messenger.send_raw, hE]
    · rcases hP : publish s.get_next_sequence_hash ct with u | u <;>
        simp only [Messenger.send_raw, hE, hP]
  · intro publish g m
    rcases hE : channelEncrypt g.shared_secret
        (g.get_nonce_for_message (g.next_message_index.getD g.send_messages_from_member_index 0)
          (trunc32 g.send_messages_from_member_index)) m with e | ct
    · simp only [Group.send, hE]
    · rcases hP : publish (sequenceHash g.identifier
          (g.get_nonce_for_message
            (g.next_message_index.getD g.send_messages_from_member_index 0)
            (trunc32 g.send_messages_from_member_index))) ct with u | u <;>
        simp only [Group.send, hE, hP]

/-- C1 counterexample: at counter 0, a send that publishes successfully
returns `Ok` yet leaves the pair-stream counter at 0 (not 1), and leaves the
group's per-lane counters untouched. -/
theorem claim1_counterexample :
    (Messenger.send_raw pubOk exStream [104]).1 = .ok () ∧
    (Messenger.send_raw pubOk exStream [104]).2.next_nonce = 0 ∧
    ¬ (Messenger.send_raw pubOk exStream [104]).2.next_nonce = exStream.next_nonce + 1 ∧
    (Group.send pubOk exGroup [104]).1 = .ok () ∧
    (Group.send pubOk exGroup [104]).2.next_message_index = exGroup.next_message_index := by
  refine ⟨rfl, rfl, by decide, rfl, rfl⟩

/-! ## C2 — group lane initialisation and polling -/

/-- C2, amended: a fresh `Group`'s per-lane array `next_message_index` has
entry `k` equal to `k` (as a `u32`), not 0 — it is built by
`members.iter().enumerate().map(|(i, _)| i as u32)` — and receiving on lane
`k` polls exactly the slot `sequence_hash(get_nonce_for_message(next[k], k))`,
i.e. `n*next[k] + k` in `u32` arithmetic: the receive depends on the
repository only at that slot. -/
theorem claim2_theorem :
    (∀ (self : List Nat) (others : List (List Nat)) (secret ctx : List Nat) (k : Nat),
      k < (Group.new self others secret ctx).members.length →
      (Group.new self others secret ctx).next_message_index.getD k 0 = k % U32M) ∧
    (∀ (g : Group) (k : Nat) (repo repo2 : RepoView),
      repo (sequenceHash g.identifier
          (g.get_nonce_for_message (g.next_message_index.getD k 0) k)) =
        repo2 (sequenceHash g.identifier
          (g.get_nonce_for_message (g.next_message_index.getD k 0) k)) →
      Group.receive_next_for repo g k = Group.receive_next_for repo2 g k) := by
  constructor
  · intro self others secret ctx k hk
    have hidx : (Group.new self others secret ctx).next_message_index =
        (List.range (Group.new self others secret ctx).members.length).map trunc32 := rfl
    rw [hidx, List.getD_eq_getElem?_getD, List.getElem?_map, List.getElem?_range hk]
    rfl
  · intro g k repo repo2 hagree
    simp only [Group.receive_next_for]
    rw [hagree]

/-- C2 witness: in the concrete two-member group, lane 1's initial logical
index is 1, and a receive against two repositories agreeing on the polled
slot gives the same result. -/
theorem claim2_witness :
    (Group.new (List.replicate 32 0) [List.replicate 32 1] (List.replicate 32 7)
      []).next_message_index.getD 1 0 = 1 % U32M ∧
    Group.receive_next_for repoEmpty exGroup 1 = Group.receive_next_for repoEmpty exGroup 1 :=
  ⟨claim2_theorem.1 _ _ _ _ 1 (by decide),
   claim2_theorem.2 exGroup 1 repoEmpty repoEmpty rfl⟩

/-- C2 counterexample: the fresh two-member group's `next_message_index` is
`[0, 1]`, so its entry at lane 1 is 1, not 0 as the claim states. -/
theorem claim2_counterexample :
    (Group.new (List.replicate 32 0) [List.replicate 32 1] (List.replicate 32 7)
      []).next_message_index = [0, 1] ∧ ¬ ([0, 1] : List Nat) = [0, 0] := by
  refine ⟨by decide, by decide⟩

/-! ## C3 — multiplexer selection -/

/-- C3, amended: each `next()` call, after filling empty lookaheads with one
`receive_next()` per stream, returns the buffered message of minimal
timestamp — but when several populated lookaheads share that minimal
timestamp, the stream with the *highest* index is selected (the loop replaces
the running best unless it is strictly older), and the selected slot is
emptied. -/
theorem claim3_theorem (las fresh : List (Option DecryptedMessage)) (i : Nat)
    (m : DecryptedMessage)
    (h : (combinedNext las fresh).1 = some (i, m)) :
    (fillLookaheads las fresh)[i]? = some (some m) ∧
    (∀ (j : Nat) (mj : DecryptedMessage),
      (fillLookaheads las fresh)[j]? = some (some mj) →
      m.block_timestamp_ms ≤ mj.block_timestamp_ms) ∧
    (∀ (j : Nat) (mj : DecryptedMessage),
      (fillLookaheads las fresh)[j]? = some (some mj) →
      mj.block_timestamp_ms = m.block_timestamp_ms → j ≤ i) ∧
    (combinedNext las fresh).2 = (fillLookaheads las fresh).set i none := by
  simp only [combinedNext] at h ⊢
  cases hsel : selectLoop 0 none (fillLookaheads las fresh) with
  | none =>
    rw [hsel] at h
    simp at h
  | some p =>
    obtain ⟨ts, k⟩ := p
    rw [hsel] at h
    have h' : Option.map (fun m => (k, m)) ((fillLookaheads las fresh).getD k none) =
        some (i, m) := h
    rcases selectLoop_spec _ 0 none ts k hsel with
      ⟨hb, _⟩ | ⟨⟨j, m0, hj, hk, hts⟩, hmin, hmax, _⟩
    · cases hb
    · have hkj : k = j := by omega
      subst hkj
      rw [List.getD_eq_getElem?_getD, hj] at h'
      simp only [Option.getD_some, Option.map_some'] at h'
      have hik : i = k := by
        injection h' with h''
        exact (congrArg Prod.fst h'').symm
      have hm : m0 = m := by
        injection h' with h''
        exact congrArg Prod.snd h''
      subst hik
      subst hm
      refine ⟨hj, ?_, ?_, ?_⟩
      · intro j' mj hj'
        have := hmin j' mj hj'
        omega
      · intro j' mj hj' hts'
        have := hmax j' mj hj' (by omega)
        omega
      · rfl

/-- C3 witness: with both lookaheads empty and fresh messages at timestamps 5
and 5, the call selects stream 1's message, which is indeed of minimal
timestamp, and empties that slot. -/
theorem claim3_witness :
    (fillLookaheads [none, none] [some msgT5a, some msgT5b])[1]? = some (some msgT5b) ∧
    (combinedNext [none, none] [some msgT5a, some msgT5b]).2 =
      (fillLookaheads [none, none] [some msgT5a, some msgT5b]).set 1 none :=
  ⟨(claim3_theorem [none, none] [some msgT5a, some msgT5b] 1 msgT5b (by decide)).1,
   (claim3_theorem [none, none] [some msgT5a, some msgT5b] 1 msgT5b (by decide)).2.2.2⟩

/-- C3 counterexample: two populated lookaheads share the minimal timestamp 5;
`next()` returns stream index 1, not the lower index 0 the claim requires. -/
theorem claim3_counterexample :
    (combinedNext [none, none] [some msgT5a, some msgT5b]).1 = some (1, msgT5b) ∧
    ¬ (combinedNext [none, none] [some msgT5a, some msgT5b]).1 = some (0, msgT5a) ∧
    msgT5a.block_timestamp_ms = msgT5b.block_timestamp_ms := by
  refine ⟨by decide, by decide, rfl⟩

/-! ## C4 — receive_next -/

/-- C4: for a pair stream (and a group lane), `receive_next` leaves the
counter unchanged and returns `None` when the repository reports the slot
empty; when the slot is present and decryption succeeds it returns the
plaintext with the stored timestamp and advances the counter by one; when
decryption fails the error is surfaced and the counter is unchanged. -/
theorem claim4_theorem :
    (∀ (s : PairStream) (repo : RepoView),
      (repo (sequenceHash s.channel.identifier s.next_nonce) = .ok none →
        s.receive_next repo = (.ok none, s)) ∧
      (∀ (em : EncryptedMessage) (m : List Nat),
        repo (sequenceHash s.channel.identifier s.next_nonce) = .ok (some em) →
        channelDecrypt s.channel.shared_secret s.next_nonce em.message = .ok m →
        s.receive_next repo = (.ok (some ⟨em.block_timestamp_ms, m⟩), s.advance_nonce) ∧
        (s.next_nonce + 1 < U32M → (s.advance_nonce).next_nonce = s.next_nonce + 1)) ∧
      (∀ (em : EncryptedMessage) (e : ChannelError),
        repo (sequenceHash s.channel.identifier s.next_nonce) = .ok (some em) →
        channelDecrypt s.channel.shared_secret s.next_nonce em.message = .error e →
        s.receive_next repo = (.error (.channel e), s))) ∧
    (∀ (g : Group) (k : Nat) (repo : RepoView),
      (repo (sequenceHash g.identifier
          (g.get_nonce_for_message (g.next_message_index.getD k 0) k)) = .ok none →
        Group.receive_next_for repo g k = (.ok none, g)) ∧
      (∀ (em : EncryptedMessage) (m : List Nat),
        repo (sequenceHash g.identifier
          (g.get_nonce_for_message (g.next_message_index.getD k 0) k)) = .ok (some em) →
        channelDecrypt g.shared_secret
          (g.get_nonce_for_message (g.next_message_index.getD k 0) k) em.message = .ok m →
        Group.receive_next_for repo g k =
          (.ok (some ⟨em.block_timestamp_ms, m⟩),
            { g with next_message_index :=
                g.next_message_index.modify (fun x => (x + 1) % U32M) k }) ∧
        (k < g.next_message_index.length →
          ((g.next_message_index.modify (fun x => (x + 1) % U32M) k).getD k 0 =
            (g.next_message_index.getD k 0 + 1) % U32M))) ∧
      (∀ (em : EncryptedMessage) (e : ChannelError),
        repo (sequenceHash g.identifier
          (g.get_nonce_for_message (g.next_message_index.getD k 0) k)) = .ok (some em) →
        channelDecrypt g.shared_secret
          (g.get_nonce_for_message (g.next_message_index.getD k 0) k) em.message = .error e →
        Group.receive_next_for repo g k = (.error (.channel e), g))) := by
  constructor
  · intro s repo
    refine ⟨?_, ?_, ?_⟩
    · intro h
      simp only [PairStream.receive_next, PairStream.get_next_sequence_hash,
        PairStream.get_next_nonce, h]
    · intro em m h1 h2
      constructor
      · simp only [PairStream.receive_next, PairStream.get_next_sequence_hash,
          PairStream.get_next_nonce, h1, h2]
      · intro hlt
        exact Nat.mod_eq_of_lt hlt
    · intro em e h1 h2
      simp only [PairStream.receive_next, PairStream.get_next_sequence_hash,
        PairStream.get_next_nonce, h1, h2]
  · intro g k repo
    refine ⟨?_, ?_, ?_⟩
    · intro h
      simp only [Group.receive_next_for, h]
    · intro em m h1 h2
      constructor
      · simp only [Group.receive_next_for, h1, h2]
      · intro hx
        rw [List.getD_eq_getElem?_getD, List.getD_eq_getElem?_getD, List.getElem?_modify,
          List.getElem?_eq_getElem hx]
        simp
    · intro em e h1 h2
      simp only [Group.receive_next_for, h1, h2]

/-- C4 witness: on the concrete stream and group — empty slot gives `None`
and an unchanged state; a decryptable slot returns the plaintext with its
stored timestamp and the advanced counter; an undecryptable slot surfaces the
forgery with the state unchanged. -/
theorem claim4_witness :
    PairStream.receive_next repoEmpty exStream = (.ok none, exStream) ∧
    PairStream.receive_next repoGood exStream =
      (.ok (some ⟨42, [104]⟩), exStream.advance_nonce) ∧
    PairStream.receive_next repoBad exStream = (.error (.channel .forgery), exStream) ∧
    Group.receive_next_for repoEmpty exGroup 0 = (.ok none, exGroup) := by
  refine ⟨(claim4_theorem.1 exStream repoEmpty).1 rfl, ?_, ?_,
    (claim4_theorem.2 exGroup 0 repoEmpty).1 rfl⟩
  · have hdec := (channel_roundtrip exSecret 0 [104] (by decide)).2
    exact ((claim4_theorem.1 exStream repoGood).2.1 exCipher [104] rfl hdec).1
  · exact (claim4_theorem.1 exStream repoBad).2.2 ⟨[], 42⟩ .forgery rfl rfl

/-! ## C5 — address agreement between the two sides of a pair -/

/-- C5: for every Diffie-Hellman scheme satisfying the X25519 interface
(agreement law `dh a (pk b) = dh b (pk a)`), every pair of key pairs and
every sequence number, the sender's send channel and the receiver's receive
channel — each built by `PairChannel::pair` from their own secret and the
other's public key — produce identical slot addresses. -/
theorem claim5_theorem (S : DHScheme) (a b : S.Sk) (seq : Nat) :
    sequenceHash (PairChannel.pair S a (S.pk b)).1.identifier seq =
    sequenceHash (PairChannel.pair S b (S.pk a)).2.identifier seq := by
  have h : (PairChannel.pair S a (S.pk b)).1.identifier =
      (PairChannel.pair S b (S.pk a)).2.identifier := by
    show (PairChannel.new (S.pk a) (S.pk b) (S.dh a (S.pk b))).identifier =
      (PairChannel.new (S.pk a) (S.pk b) (S.dh b (S.pk a))).identifier
    rw [S.dh_comm a b]
  rw [h]

/-! ## C6 — AEAD round trip -/

/-- C6: on any channel keyed by a 32-byte shared secret, decrypting the
encryption of any plaintext under the same sequence number returns the
plaintext: `open(seq, seal(seq, m)) = m`. -/
theorem claim6_theorem (sharedSecret : List Nat) (seq : Nat) (m : List Nat)
    (h : sharedSecret.length = 32) :
    ∃ ct, channelEncrypt sharedSecret seq m = .ok ct ∧
      channelDecrypt sharedSecret seq ct = .ok m :=
  ⟨aeadSeal sharedSecret (u32ToNonce seq) m, channel_roundtrip sharedSecret seq m h⟩

/-- C6 witness: the round trip at a concrete secret, sequence number and
plaintext. -/
theorem claim6_witness :
    ∃ ct, channelEncrypt exSecret 0 [104, 105] = .ok ct ∧
      channelDecrypt exSecret 0 ct = .ok [104, 105] :=
  claim6_theorem exSecret 0 [104, 105] (by decide)

/-! ## C7 — directional disjointness -/

/-- C7, amended: for a pair channel built from key pairs whose public keys
differ, the send and receive channels' 256-byte identifiers differ (they swap
the sender/receiver ranges), hence the slot-address preimages differ at every
sequence number, and the two addresses themselves differ unless SHA-256
collides on those two distinct preimages. (As stated the claim fails: when
the two public keys coincide — a conversation with oneself — the two
identifiers and hence the two addresses are identical.) -/
theorem claim7_theorem (S : DHScheme) (a : S.Sk) (rpk : List Nat) (seq : Nat)
    (hne : S.pk a ≠ rpk) (hlen : rpk.length = 32) :
    (PairChannel.pair S a rpk).1.identifier ≠ (PairChannel.pair S a rpk).2.identifier ∧
    u32le seq ++ (PairChannel.pair S a rpk).1.identifier ≠
      u32le seq ++ (PairChannel.pair S a rpk).2.identifier ∧
    (sequenceHash (PairChannel.pair S a rpk).1.identifier seq ≠
        sequenceHash (PairChannel.pair S a rpk).2.identifier seq ∨
      ∃ x y : List Nat, x ≠ y ∧ sha256Bytes x = sha256Bytes y) := by
  have h1 : (PairChannel.pair S a rpk).1.identifier =
      S.pk a ++ (rpk ++ (S.dh a rpk ++ List.replicate 160 0)) :=
    pair_identifier_eq _ _ _ (S.pk_len a) hlen (S.dh_len a rpk)
  have h2 : (PairChannel.pair S a rpk).2.identifier =
      rpk ++ (S.pk a ++ (S.dh a rpk ++ List.replicate 160 0)) :=
    pair_identifier_eq _ _ _ hlen (S.pk_len a) (S.dh_len a rpk)
  have hid : (PairChannel.pair S a rpk).1.identifier ≠
      (PairChannel.pair S a rpk).2.identifier := by
    intro heq
    rw [h1, h2] at heq
    have htake := congrArg (List.take 32) heq
    rw [List.take_left' (S.pk_len a), List.take_left' hlen] at htake
    exact hne htake
  refine ⟨hid, fun heq => hid (List.append_cancel_left heq), ?_⟩
  by_cases hh : sequenceHash (PairChannel.pair S a rpk).1.identifier seq =
      sequenceHash (PairChannel.pair S a rpk).2.identifier seq
  · right
    refine ⟨u32le seq ++ (PairChannel.pair S a rpk).1.identifier,
      u32le seq ++ (PairChannel.pair S a rpk).2.identifier,
      fun heq => hid (List.append_cancel_left heq), ?_⟩
    rw [← sequenceHash_def, ← sequenceHash_def]
    exact hh
  · left
    exact hh

/-- C7 witness: at the concrete exponentiation scheme with distinct public
keys, the two directions' identifiers differ. -/
theorem claim7_witness :
    (PairChannel.pair powScheme 0 (powPk 1)).1.identifier ≠
      (PairChannel.pair powScheme 0 (powPk 1)).2.identifier :=
  (claim7_theorem powScheme 0 (powPk 1) 0 (by decide) (by decide)).1

/-- C7 counterexample: pairing a secret with one's own public key gives a
send channel and a receive channel with the same identifier, hence the same
slot address at sequence number 0 — the claim's universal inequality fails. -/
theorem claim7_counterexample :
    sequenceHash (PairChannel.pair powScheme 0 (powPk 0)).1.identifier 0 =
    sequenceHash (PairChannel.pair powScheme 0 (powPk 0)).2.identifier 0 := rfl

/-! ## C8 — the slot address -/

/-- C8: the slot address is the SHA-256 digest of the 4-byte little-endian
sequence number followed by the channel identifier; the digest is 32 bytes,
the length prefix 4 bytes, and the identifiers built by `PairChannel::new`
and `Group::new` are 256 bytes. -/
theorem claim8_theorem :
    (∀ (identifier : List Nat) (seq : Nat),
      sequenceHash identifier seq = sha256Bytes (u32le seq ++ identifier) ∧
      (sequenceHash identifier seq).length = 32 ∧ (u32le seq).length = 4) ∧
    (∀ sid rid ss : List Nat, sid.length = 32 → rid.length = 32 → ss.length = 32 →
      (PairChannel.new sid rid ss).identifier.length = 256) ∧
    (∀ (self : List Nat) (others : List (List Nat)) (ss ctx : List Nat), ss.length = 32 →
      (Group.new self others ss ctx).identifier.length = 256) :=
  ⟨fun identifier seq =>
    ⟨sequenceHash_def identifier seq, sequenceHash_length identifier seq, u32le_length seq⟩,
   pair_identifier_length, group_identifier_length⟩

/-- C8 witness: the digest length, the pair identifier length and the group
identifier length at concrete inputs. -/
theorem claim8_witness :
    (sequenceHash exGroup.identifier 3).length = 32 ∧
    (PairChannel.new (List.replicate 32 0) (List.replicate 32 1) exSecret).identifier.length =
      256 ∧
    exGroup.identifier.length = 256 :=
  ⟨(claim8_theorem.1 exGroup.identifier 3).2.1,
   claim8_theorem.2.1 _ _ _ (by decide) (by decide) (by decide),
   claim8_theorem.2.2 _ _ _ _ (by decide)⟩

/-! ## C9 — group nonce lanes -/

/-- C9, amended: as long as the whole nonce range fits in `u32` — that is,
`n * M ≤ 2^32` for an `n`-member group and logical indices below `M` — the
assignment `nonce_of(member i, logical index j) = n*j + i` computed by
`Group::get_nonce_for_message` in `u32` arithmetic is injective, so no two
`(member, logical index)` pairs share an AEAD nonce. (Unbounded `M`, as
stated, fails: the `u32` multiplication wraps.) -/
theorem claim9_theorem (g : Group) (M i j i' j' : Nat)
    (hM : g.members.length * M ≤ U32M)
    (hi : i < g.members.length) (hi' : i' < g.members.length)
    (hj : j < M) (hj' : j' < M)
    (heq : g.get_nonce_for_message j i = g.get_nonce_for_message j' i') :
    i = i' ∧ j = j' := by
  have hn : 0 < g.members.length := by omega
  have hnle : g.members.length ≤ U32M := by
    have : g.members.length * 1 ≤ g.members.length * M :=
      Nat.mul_le_mul_left _ (by omega)
    omega
  have key : ∀ (jj ii : Nat), ii < g.members.length → jj < M →
      g.get_nonce_for_message jj ii = g.members.length * jj + ii := by
    intro jj ii hii hjj
    have hval : g.members.length * jj + ii < U32M := by
      have h1 : g.members.length * jj + ii < g.members.length * (jj + 1) := by
        rw [Nat.mul_add, Nat.mul_one]
        omega
      have h2 : g.members.length * (jj + 1) ≤ g.members.length * M :=
        Nat.mul_le_mul_left _ (by omega)
      omega
    unfold Group.get_nonce_for_message trunc32
    rcases Nat.lt_or_ge g.members.length U32M with hlt | hge
    · have hmul : g.members.length * jj < U32M := by omega
      rw [Nat.mod_eq_of_lt hlt, Nat.mod_eq_of_lt hmul, Nat.mod_eq_of_lt hval]
    · have hnU : g.members.length = U32M := le_antisymm hnle hge
      have hjj0 : jj = 0 := by
        by_contra hz
        have : g.members.length ≤ g.members.length * jj :=
          Nat.le_mul_of_pos_right _ (by omega)
        omega
      subst hjj0
      rw [hnU, Nat.mod_self, Nat.zero_mul, Nat.zero_mod, Nat.zero_add,
        Nat.mul_zero, Nat.zero_add]
      exact Nat.mod_eq_of_lt (by omega)
  rw [key j i hi hj, key j' i' hi' hj'] at heq
  have e1 : (g.members.length * j + i) % g.members.length = i := by
    rw [Nat.mul_add_mod]
    exact Nat.mod_eq_of_lt hi
  have e2 : (g.members.length * j' + i') % g.members.length = i' := by
    rw [Nat.mul_add_mod]
    exact Nat.mod_eq_of_lt hi'
  have d1 : (g.members.length * j + i) / g.members.length = j := by
    rw [Nat.mul_add_div hn, Nat.div_eq_of_lt hi]
    omega
  have d2 : (g.members.length * j' + i') / g.members.length = j' := by
    rw [Nat.mul_add_div hn, Nat.div_eq_of_lt hi']
    omega
  rw [heq] at e1 d1
  omega

/-- C9 witness: in the concrete two-member group with `M = 2`, the nonce map
is injective at `(i, j) = (1, 1)`. -/
theorem claim9_witness : (1 : Nat) = 1 ∧ (1 : Nat) = 1 :=
  claim9_theorem exGroup 2 1 1 1 1 (by decide) (by decide) (by decide)
    (by decide) (by decide) rfl

/-- C9 counterexample: in the two-member group, the distinct pairs
`(i, j) = (0, 0)` and `(0, 2^31)` — both with `j < M` for `M = 2^31 + 1` —
receive the same `u32` nonce 0: the multiset has a duplicate. -/
theorem claim9_counterexample :
    exGroup.get_nonce_for_message 2147483648 0 = exGroup.get_nonce_for_message 0 0 ∧
    ¬ ((0 : Nat), (2147483648 : Nat)) = ((0 : Nat), (0 : Nat)) ∧
    exGroup.members.length = 2 ∧ (2147483648 : Nat) < 2147483649 := by
  refine ⟨by decide, by decide, by decide, by decide⟩

/-! ## C10 — StructuredMessage::try_from_bytes is partial on short inputs -/

/-- C10: `try_from_bytes` panics (modelled as `.error ()`) on every input
shorter than 4 bytes, and on every input whose first 4 bytes match the header
magic but whose length is below `4 + KEY_SIZE` — instead of returning
`None`. -/
theorem claim10_theorem (keySize : Nat) (bytes : List Nat) :
    (bytes.length < 4 → tryFromBytes keySize bytes = .error ()) ∧
    (bytes.take 4 = headerMagic → bytes.length < 4 + keySize →
      tryFromBytes keySize bytes = .error ()) := by
  constructor
  · intro h
    unfold tryFromBytes
    rw [if_pos h]
  · intro hmagic hlen
    have h4 : ¬ bytes.length < 4 := by
      intro h4
      have hlt : (bytes.take 4).length = bytes.length := by
        rw [List.length_take]
        omega
      rw [hmagic] at hlt
      simp [headerMagic] at hlt
      omega
    unfold tryFromBytes
    rw [if_neg h4, if_neg (fun hne => hne hmagic), if_pos hlen]

/-- C10 witness: a 3-byte input panics, and a 5-byte input carrying the
header magic panics for `KEY_SIZE = 32`. -/
theorem claim10_witness :
    tryFromBytes 32 [88, 88, 88] = .error () ∧
    tryFromBytes 32 [88, 88, 88, 88, 1] = .error () :=
  ⟨(claim10_theorem 32 [88, 88, 88]).1 (by decide),
   (claim10_theorem 32 [88, 88, 88, 88, 1]).2 (by decide) (by decide)⟩

end NPD
